import Mathlib

/-!
# oras: in-memory content store and discovery helper

A shallow embedding of `pkg/oras/store.go` and `pkg/oras/discover.go`.

Conventions of the embedding

* A Go error value is an `Option GoError`; `none` is the nil error.
* A Go slice is a `Slice α`; `Slice.nil` is the nil slice, `Slice.of l` a non-nil
  slice holding the elements `l`.
* A Go interface value returned by an external capability is an `Option`;
  `none` is the nil interface.  Calling a method on it is a run-time panic, and
  a function that can panic returns an `Option` whose `none` is the panic.
* The `context.Context` argument and the debug logging of the fetch handler do
  not influence any returned value and are left out.
* The first sections give a `[]byte` by the bytes it holds.  The section on shared
  byte arrays repeats the store with a `[]byte` as a header pointing into a heap
  of arrays, and `shared_store_refines` relates the two.
-/

namespace Oras

/-! ## Basic Go values -/

/-- One byte. -/
abbrev Byte := Fin 256

/-- Go slice value: `nil` is the nil slice, `of l` is a non-nil slice with elements `l`. -/
inductive Slice (α : Type) where
  | nil : Slice α
  | of (elems : List α) : Slice α
deriving DecidableEq, Repr

namespace Slice

/-- Elements of a slice; the nil slice has none. -/
def toList {α : Type} : Slice α → List α
  | nil => []
  | of l => l

/-- Go `len(s)`. -/
def len {α : Type} (s : Slice α) : Nat := s.toList.length

end Slice

/-- Go error values met by this package.  `EOF` is `io.EOF`, `ErrNotFound` is the
package sentinel returned by `MemoryStore.ReaderAt` (declared in a file of the
package other than the two embedded here), `NegativeOffset` is the error of
`bytes.Reader.ReadAt` for a negative offset, and `other msg` stands for any error
value produced by an external capability. -/
inductive GoError where
  | EOF : GoError
  | ErrNotFound : GoError
  | NegativeOffset : GoError
  | other (msg : String) : GoError
deriving DecidableEq, Repr

/-- Type `digest.Digest` is a Go string type. -/
structure Digest where
  val : String
deriving DecidableEq, Repr

/-- Method `Digest.String`: the digest as a plain string. -/
def Digest.String (d : Digest) : String := d.val

/-- Type `ocispec.Descriptor`: media type, digest, size and URLs; the fields
`Annotations` and `Platform`, which this package never reads, are left out.  The
zero value has every field empty. -/
structure Descriptor where
  MediaType : String
  Digest : Digest
  Size : Int
  URLs : List String
deriving DecidableEq, Repr

/-- Zero value `ocispec.Descriptor{}`. -/
def Descriptor.zero : Descriptor := ⟨"", ⟨""⟩, 0, []⟩

/-! ## MemoryStore -/

/-- Type `MemoryStore`: the map `content map[string][]byte`.  A key is absent
when the function gives `none`.  A store state is an initialised map, as made by
the constructor `NewMemoryStore` and changed by `Set`. -/
structure MemoryStore where
  content : String → Option (Slice Byte)

/-- Function `NewMemoryStore`: a store with an empty map. -/
def NewMemoryStore : MemoryStore := ⟨fun _ => none⟩

/-- Method `Set`: `s.content[desc.Digest.String()] = content`. -/
def MemoryStore.Set (s : MemoryStore) (desc : Descriptor) (content : Slice Byte) : MemoryStore :=
  ⟨fun k => if k = desc.Digest.String then some content else s.content k⟩

/-- Method `Get`: `content, ok := s.content[desc.Digest.String()]`; an absent key
gives the zero value of the element type (the nil slice) and `false`. -/
def MemoryStore.Get (s : MemoryStore) (desc : Descriptor) : Slice Byte × Bool :=
  match s.content desc.Digest.String with
  | some content => (content, true)
  | none => (Slice.nil, false)

/-! ## The reader handle

The handle embeds an `io.ReaderAt` that is always the `*bytes.Reader` made by
`bytes.NewReader`; `bytes.Reader` belongs to the Go standard library and is
transcribed here from the library source. -/

/-- Go builtin `copy(dst, src)`: copies `min(len(dst), len(src))` elements to the
front of `dst` and returns the new contents of `dst` and the number copied. -/
def copy {α : Type} (dst src : List α) : List α × Nat :=
  let n := min dst.length src.length
  (src.take n ++ dst.drop n, n)

/-- Standard library `bytes.Reader`: the slice `s` being read and the index `i`
of the sequential reads. -/
structure bytes.Reader where
  s : Slice Byte
  i : Int
deriving DecidableEq, Repr

/-- Standard library `bytes.NewReader(b)`. -/
def bytes.NewReader (b : Slice Byte) : bytes.Reader := ⟨b, 0⟩

/-- Standard library `bytes.Reader.ReadAt(b, off)`:

    if off < 0 { return 0, errors.New("bytes.Reader.ReadAt: negative offset") }
    if off >= int64(len(r.s)) { return 0, io.EOF }
    n = copy(b, r.s[off:])
    if n < len(b) { err = io.EOF }
    return

The buffer `b` is passed in and its contents after the call are returned together
with `n` and the error.  The reader itself is not modified. -/
def bytes.Reader.ReadAt (r : bytes.Reader) (b : List Byte) (off : Int) :
    List Byte × Nat × Option GoError :=
  if off < 0 then (b, 0, some GoError.NegativeOffset)
  else if off ≥ (r.s.len : Int) then (b, 0, some GoError.EOF)
  else
    let c := copy b (r.s.toList.drop off.toNat)
    (c.1, c.2, if c.2 < b.length then some GoError.EOF else none)

/-- Type `readerAt`: the embedded `io.ReaderAt` and the size. -/
structure readerAt where
  ReaderAt : bytes.Reader
  size : Int
deriving DecidableEq, Repr

/-- Function `newReaderAt`: wraps `bytes.NewReader(content)` and records
`int64(len(content))`.  Here the slice is given by the bytes it denotes; in the
code the handle keeps the slice header and so shares the backing array with the
map entry, which `Mem.newReaderAt` makes explicit. -/
def newReaderAt (content : Slice Byte) : readerAt :=
  ⟨bytes.NewReader content, (content.len : Int)⟩

/-- Method `ReadAt` of `readerAt`, promoted from the embedded `io.ReaderAt`. -/
def readerAt.ReadAt (r : readerAt) (b : List Byte) (off : Int) :
    List Byte × Nat × Option GoError :=
  r.ReaderAt.ReadAt b off

/-- Method `Close` of `readerAt`: the body is `return nil`; no field is assigned,
so the handle is returned as it was, together with the nil error. -/
def readerAt.Close (r : readerAt) : Option GoError × readerAt := (none, r)

/-- Method `Size` of `readerAt`. -/
def readerAt.Size (r : readerAt) : Int := r.size

/-- Method `ReaderAt` of the store: a fresh handle over the stored bytes, or a nil
handle and `ErrNotFound`. -/
def MemoryStore.ReaderAt (s : MemoryStore) (desc : Descriptor) :
    Option readerAt × Option GoError :=
  match s.content desc.Digest.String with
  | some content => (some (newReaderAt content), none)
  | none => (none, some GoError.ErrNotFound)

/-- A store obtained from `NewMemoryStore()` by a finite sequence of `Set` calls,
given as the list of their arguments in call order. -/
def setSequence (calls : List (Descriptor × Slice Byte)) : MemoryStore :=
  calls.foldl (fun s c => s.Set c.1 c.2) NewMemoryStore

/-! ## The fetch handler

The fetcher and the stream it opens are external capabilities.  A stream is given
by the results its successive `Read` calls will produce, the error its `Close`
returns, and a counter of the `Close` calls made on it so far. -/

/-- Result of one `Read` call on a stream: the bytes placed in the buffer and the
error returned with them (`io.EOF` at the end of the data). -/
structure ReadStep where
  data : List Byte
  err : Option GoError
deriving DecidableEq, Repr

/-- An `io.ReadCloser`: `pending` lists the results of the `Read` calls still to
come (once it is used up every `Read` gives no bytes and `io.EOF`), `closeErr` is
what `Close` returns, `closeCalls` counts the calls of `Close`. -/
structure ReadCloser where
  pending : List ReadStep
  closeErr : Option GoError
  closeCalls : Nat
deriving DecidableEq, Repr

/-- Method `Close` of a stream: returns its error and records the call. -/
def ReadCloser.Close (rc : ReadCloser) : Option GoError × ReadCloser :=
  (rc.closeErr, { rc with closeCalls := rc.closeCalls + 1 })

/-- The read loop of `ioutil.ReadAll`: call `Read` and append what it gave to `b`,
until a call returns an error; `io.EOF` is turned into a nil error.  Returns the
bytes, the error and the `Read` results not consumed. -/
def ioutil.readLoop : List ReadStep → List Byte → List Byte × Option GoError × List ReadStep
  | [], b => (b, none, [])
  | st :: rest, b =>
    match st.err with
    | none => ioutil.readLoop rest (b ++ st.data)
    | some e => (b ++ st.data, if e = GoError.EOF then none else some e, rest)

/-- Standard library `ioutil.ReadAll(r)`: reads from `r` until an error or EOF and
returns the data it read (a non-nil slice) and the error, nil after EOF; the
stream is returned in the state the reads left it in. -/
def ioutil.ReadAll (rc : ReadCloser) : (Slice Byte × Option GoError) × ReadCloser :=
  let r := ioutil.readLoop rc.pending []
  ((Slice.of r.1, r.2.1), { rc with pending := r.2.2 })

/-- Interface `remotes.Fetcher`: `Fetch(ctx, desc)` returns a stream and an error. -/
structure Fetcher where
  Fetch : Descriptor → Option ReadCloser × Option GoError

/-- One invocation of a handler: `ret` is the returned pair of child descriptors
and error (`none` when the invocation panics), `store` is the store afterwards,
`stream` is the stream that `Fetch` returned, in the state it has when the
invocation is over (`none` when `Fetch` returned a nil stream). -/
structure HandlerRun where
  ret : Option (Slice Descriptor × Option GoError)
  store : MemoryStore
  stream : Option ReadCloser

/-- Method `FetchHandler`, applied to a descriptor:

    rc, err := fetcher.Fetch(ctx, desc)
    if err != nil { return nil, err }
    defer rc.Close()
    content, err := ioutil.ReadAll(rc)
    if err != nil { return nil, err }
    s.Set(desc, content)
    return nil, nil

The deferred `Close` runs on both returns that follow it and its result is
dropped.  A nil `rc` with a nil error makes the method call on it panic. -/
def MemoryStore.FetchHandler (s : MemoryStore) (fetcher : Fetcher) (desc : Descriptor) :
    HandlerRun :=
  match fetcher.Fetch desc with
  | (rc, some err) => ⟨some (Slice.nil, some err), s, rc⟩
  | (none, none) => ⟨none, s, none⟩
  | (some rc, none) =>
    match ioutil.ReadAll rc with
    | ((_, some err), rc1) => ⟨some (Slice.nil, some err), s, some rc1.Close.2⟩
    | ((content, none), rc1) => ⟨some (Slice.nil, none), s.Set desc content, some rc1.Close.2⟩

/-! ## Discover

The resolver and the discoverer are external capabilities; the artifact type
`remotes.DiscoveredArtifact` is a parameter `A`. -/

/-- Interface `remotes.Discoverer`: `Discover(ctx, desc, artifactType)`. -/
structure Discoverer (A : Type) where
  Discover : Descriptor → String → Slice A × Option GoError

/-- Interface `remotes.Resolver`: `Resolve(ctx, ref)` returns a name, a descriptor
and an error; `Discoverer(ctx, ref)` returns a discoverer and an error. -/
structure Resolver (A : Type) where
  Resolve : String → String × Descriptor × Option GoError
  Discoverer : String → Option (Discoverer A) × Option GoError

/-- A call made on an external capability, with its arguments. -/
inductive Call where
  | Resolve (ref : String) : Call
  | Discoverer (ref : String) : Call
  | Discover (desc : Descriptor) (artifactType : String) : Call
deriving DecidableEq, Repr

/-- One call of `Discover`: `ret` is the returned triple (`none` when the call
panics), `calls` the capability calls it made, in order. -/
structure DiscoverRun (A : Type) where
  ret : Option (Descriptor × Slice A × Option GoError)
  calls : List Call

/-- Function `Discover`:

    _, desc, err := resolver.Resolve(ctx, ref)
    if err != nil { return ocispec.Descriptor{}, nil, err }
    discoverer, err := resolver.Discoverer(ctx, ref)
    if err != nil { return ocispec.Descriptor{}, nil, err }
    artifacts, err := discoverer.Discover(ctx, desc, artifactType)
    if err != nil { return ocispec.Descriptor{}, nil, err }
    return desc, artifacts, err

A nil discoverer with a nil error makes the call of its `Discover` panic. -/
def Discover {A : Type} (resolver : Resolver A) (ref artifactType : String) : DiscoverRun A :=
  match resolver.Resolve ref with
  | (_, _, some err) => ⟨some (Descriptor.zero, Slice.nil, some err), [Call.Resolve ref]⟩
  | (_, desc, none) =>
    match resolver.Discoverer ref with
    | (_, some err) =>
      ⟨some (Descriptor.zero, Slice.nil, some err), [Call.Resolve ref, Call.Discoverer ref]⟩
    | (none, none) => ⟨none, [Call.Resolve ref, Call.Discoverer ref]⟩
    | (some discoverer, none) =>
      match discoverer.Discover desc artifactType with
      | (_, some err) =>
        ⟨some (Descriptor.zero, Slice.nil, some err),
          [Call.Resolve ref, Call.Discoverer ref, Call.Discover desc artifactType]⟩
      | (artifacts, none) =>
        ⟨some (desc, artifacts, none),
          [Call.Resolve ref, Call.Discoverer ref, Call.Discover desc artifactType]⟩

/-! ## Sequences of operations -/

/-- An operation performed by a caller: one of the four methods of the store
(`FetchHandler` stands for one invocation of the handler it returns), or `Close`
on a reader handle. -/
inductive Op where
  | Set (desc : Descriptor) (content : Slice Byte) : Op
  | Get (desc : Descriptor) : Op
  | ReaderAt (desc : Descriptor) : Op
  | FetchHandler (fetcher : Fetcher) (desc : Descriptor) : Op
  | Close (h : readerAt) : Op

/-- The store after one operation.  `Set` assigns one map entry and the handler
calls `Set` on its successful path; the bodies of `Get` and `ReaderAt` only read
`s.content`, and `Close` of a handle has no access to a store. -/
def MemoryStore.after (s : MemoryStore) : Op → MemoryStore
  | Op.Set desc content => s.Set desc content
  | Op.Get _ => s
  | Op.ReaderAt _ => s
  | Op.FetchHandler fetcher desc => (s.FetchHandler fetcher desc).store
  | Op.Close _ => s

/-- The store after a finite sequence of operations, performed in list order. -/
def MemoryStore.afterAll (s : MemoryStore) (ops : List Op) : MemoryStore :=
  ops.foldl MemoryStore.after s

/-- The handle after `n` successive calls of `Close`. -/
def readerAt.closeTimes (r : readerAt) : Nat → readerAt
  | 0 => r
  | n + 1 => (readerAt.closeTimes r n).Close.2

/-- The error of the first failing step of a discovery: the steps are `Resolve`,
obtaining the discoverer, and the `Discover` of the discoverer obtained, taken in
this order; a step is looked at only when the steps before it returned a nil
error.  The result is `none` when no step fails. -/
def firstFailure {A : Type} (resolver : Resolver A) (ref artifactType : String) :
    Option GoError :=
  match (resolver.Resolve ref).2.2 with
  | some e => some e
  | none =>
    match (resolver.Discoverer ref).2 with
    | some e => some e
    | none =>
      match (resolver.Discoverer ref).1 with
      | none => none
      | some v => (v.Discover (resolver.Resolve ref).2.1 artifactType).2

/-! ## The store over shared byte arrays

In Go a `[]byte` is a header that points into a backing array; `Set`, `Get`,
`bytes.NewReader` and `newReaderAt` pass the header on and copy no bytes.  The
definitions of this section repeat the store with slices as references into a
heap of arrays, so that a map entry, a reader handle and a slice held by the
caller can share one array.  The definitions above are the same code with every
slice replaced by the bytes it denotes. -/

/-- The byte arrays allocated so far; the address of an array is its index. -/
structure Mem.Heap where
  arrays : List (List Byte)
deriving DecidableEq, Repr

/-- A Go `[]byte` header: the nil slice, or the address of the backing array with
the offset and the length of the slice in it. -/
inductive Mem.SliceRef where
  | nil : Mem.SliceRef
  | ref (addr off len : Nat) : Mem.SliceRef
deriving DecidableEq, Repr

/-- Go `len(s)`, read from the header. -/
def Mem.SliceRef.len : Mem.SliceRef → Nat
  | Mem.SliceRef.nil => 0
  | Mem.SliceRef.ref _ _ len => len

/-- The bytes a slice denotes in a heap. -/
def Mem.Heap.bytes (hp : Mem.Heap) : Mem.SliceRef → List Byte
  | Mem.SliceRef.nil => []
  | Mem.SliceRef.ref addr off len => (((hp.arrays[addr]?).getD []).drop off).take len

/-- A slice is valid in a heap when its array is allocated and the slice lies
within it. -/
def Mem.Heap.valid (hp : Mem.Heap) : Mem.SliceRef → Prop
  | Mem.SliceRef.nil => True
  | Mem.SliceRef.ref addr off len =>
    addr < hp.arrays.length ∧ off + len ≤ ((hp.arrays[addr]?).getD []).length

/-- Validity of a slice in a heap is decidable. -/
instance Mem.Heap.decValid (hp : Mem.Heap) : (r : Mem.SliceRef) → Decidable (hp.valid r)
  | Mem.SliceRef.nil => isTrue trivial
  | Mem.SliceRef.ref addr off len =>
    inferInstanceAs
      (Decidable (addr < hp.arrays.length ∧ off + len ≤ ((hp.arrays[addr]?).getD []).length))

/-- Allocation of a new array holding `data`: the slice over all of it and the
heap with the array added. -/
def Mem.Heap.alloc (hp : Mem.Heap) (data : List Byte) : Mem.SliceRef × Mem.Heap :=
  (Mem.SliceRef.ref hp.arrays.length 0 data.length, ⟨hp.arrays ++ [data]⟩)

/-- The assignment `b[i] = v` made by the holder of a slice `b`, for `i < len(b)`;
it writes into the backing array. -/
def Mem.Heap.write (hp : Mem.Heap) (b : Mem.SliceRef) (i : Nat) (v : Byte) : Mem.Heap :=
  match b with
  | Mem.SliceRef.nil => hp
  | Mem.SliceRef.ref addr off len =>
    if i < len then ⟨hp.arrays.set addr (((hp.arrays[addr]?).getD []).set (off + i) v)⟩
    else hp

/-- Type `MemoryStore` with the map values as slice headers. -/
structure Mem.MemoryStore where
  content : String → Option Mem.SliceRef

/-- Function `NewMemoryStore`: a store with an empty map. -/
def Mem.NewMemoryStore : Mem.MemoryStore := ⟨fun _ => none⟩

/-- Method `Set`: `s.content[desc.Digest.String()] = content`; the header is stored,
the bytes are not copied. -/
def Mem.MemoryStore.Set (s : Mem.MemoryStore) (desc : Descriptor) (content : Mem.SliceRef) :
    Mem.MemoryStore :=
  ⟨fun k => if k = desc.Digest.String then some content else s.content k⟩

/-- Method `Get`: returns the stored header and `true`, or the nil slice and
`false`. -/
def Mem.MemoryStore.Get (s : Mem.MemoryStore) (desc : Descriptor) : Mem.SliceRef × Bool :=
  match s.content desc.Digest.String with
  | some content => (content, true)
  | none => (Mem.SliceRef.nil, false)

/-- Standard library `bytes.Reader` holding a slice header. -/
structure Mem.Reader where
  s : Mem.SliceRef
  i : Int
deriving DecidableEq, Repr

/-- Standard library `bytes.NewReader(b)`: keeps the header `b`. -/
def Mem.NewReader (b : Mem.SliceRef) : Mem.Reader := ⟨b, 0⟩

/-- Standard library `bytes.Reader.ReadAt(b, off)`, reading the bytes of `r.s` from
the heap at the time of the call.  The buffer `b` belongs to the caller and is
passed and returned by value. -/
def Mem.Reader.ReadAt (hp : Mem.Heap) (r : Mem.Reader) (b : List Byte) (off : Int) :
    List Byte × Nat × Option GoError :=
  if off < 0 then (b, 0, some GoError.NegativeOffset)
  else if off ≥ (r.s.len : Int) then (b, 0, some GoError.EOF)
  else
    let c := copy b ((hp.bytes r.s).drop off.toNat)
    (c.1, c.2, if c.2 < b.length then some GoError.EOF else none)

/-- Type `readerAt` over a slice header. -/
structure Mem.readerAt where
  ReaderAt : Mem.Reader
  size : Int
deriving DecidableEq, Repr

/-- Function `newReaderAt`: `bytes.NewReader(content)` and `int64(len(content))`; the
handle keeps the header it was given. -/
def Mem.newReaderAt (content : Mem.SliceRef) : Mem.readerAt :=
  ⟨Mem.NewReader content, (content.len : Int)⟩

/-- Method `ReadAt` of `readerAt`, promoted from the embedded reader. -/
def Mem.readerAt.ReadAt (hp : Mem.Heap) (r : Mem.readerAt) (b : List Byte) (off : Int) :
    List Byte × Nat × Option GoError :=
  r.ReaderAt.ReadAt hp b off

/-- Method `Close` of `readerAt`: returns nil and assigns nothing. -/
def Mem.readerAt.Close (r : Mem.readerAt) : Option GoError × Mem.readerAt := (none, r)

/-- Method `Size` of `readerAt`. -/
def Mem.readerAt.Size (r : Mem.readerAt) : Int := r.size

/-- Method `ReaderAt` of the store: a fresh handle over the stored header, or a nil
handle and `ErrNotFound`. -/
def Mem.MemoryStore.ReaderAt (s : Mem.MemoryStore) (desc : Descriptor) :
    Option Mem.readerAt × Option GoError :=
  match s.content desc.Digest.String with
  | some content => (some (Mem.newReaderAt content), none)
  | none => (none, some GoError.ErrNotFound)

/-- Standard library `ioutil.ReadAll(r)`: the data read is placed in a newly
allocated array. -/
def Mem.ReadAll (hp : Mem.Heap) (rc : ReadCloser) :
    (Mem.SliceRef × Option GoError) × ReadCloser × Mem.Heap :=
  let r := ioutil.readLoop rc.pending []
  (((hp.alloc r.1).1, r.2.1), { rc with pending := r.2.2 }, (hp.alloc r.1).2)

/-- The memory and the store in it. -/
structure Mem.World where
  heap : Mem.Heap
  store : Mem.MemoryStore

/-- One invocation of a handler: the returned pair (`none` for a panic), the world
afterwards and the stream in its final state. -/
structure Mem.HandlerRun where
  ret : Option (Slice Descriptor × Option GoError)
  world : Mem.World
  stream : Option ReadCloser

/-- Method `FetchHandler`, applied to a descriptor; as `MemoryStore.FetchHandler`
above, with the buffer of `ioutil.ReadAll` allocated in the heap. -/
def Mem.World.FetchHandler (w : Mem.World) (fetcher : Fetcher) (desc : Descriptor) :
    Mem.HandlerRun :=
  match fetcher.Fetch desc with
  | (rc, some err) => ⟨some (Slice.nil, some err), w, rc⟩
  | (none, none) => ⟨none, w, none⟩
  | (some rc, none) =>
    match Mem.ReadAll w.heap rc with
    | ((_, some err), rc1, hp1) =>
      ⟨some (Slice.nil, some err), ⟨hp1, w.store⟩, some rc1.Close.2⟩
    | ((content, none), rc1, hp1) =>
      ⟨some (Slice.nil, none), ⟨hp1, w.store.Set desc content⟩, some rc1.Close.2⟩

/-- The Go slice value that a header denotes in a heap. -/
def Mem.Heap.slice (hp : Mem.Heap) : Mem.SliceRef → Slice Byte
  | Mem.SliceRef.nil => Slice.nil
  | Mem.SliceRef.ref addr off len => Slice.of (hp.bytes (Mem.SliceRef.ref addr off len))

/-- The store of the first sections that a world denotes: every header replaced by
the bytes it denotes. -/
def Mem.World.abs (w : Mem.World) : Oras.MemoryStore :=
  ⟨fun k => (w.store.content k).map w.heap.slice⟩

/-- Every header held by the store is valid in the heap. -/
def Mem.World.wf (w : Mem.World) : Prop :=
  ∀ (k : String) (r : Mem.SliceRef), w.store.content k = some r → w.heap.valid r

/-- An operation performed by a caller on the store or on a handle, with slices
given as headers. -/
inductive Mem.Op where
  | Set (desc : Descriptor) (content : Mem.SliceRef) : Mem.Op
  | Get (desc : Descriptor) : Mem.Op
  | ReaderAt (desc : Descriptor) : Mem.Op
  | FetchHandler (fetcher : Fetcher) (desc : Descriptor) : Mem.Op
  | Close (h : Mem.readerAt) : Mem.Op

/-- The memory and the store after one operation. -/
def Mem.World.after (w : Mem.World) : Mem.Op → Mem.World
  | Mem.Op.Set desc content => ⟨w.heap, w.store.Set desc content⟩
  | Mem.Op.Get _ => w
  | Mem.Op.ReaderAt _ => w
  | Mem.Op.FetchHandler fetcher desc => (w.FetchHandler fetcher desc).world
  | Mem.Op.Close _ => w

/-- The memory and the store after a finite sequence of operations. -/
def Mem.World.afterAll (w : Mem.World) (ops : List Mem.Op) : Mem.World :=
  ops.foldl Mem.World.after w

/-! ## Concrete inputs -/


/-- The bytes of the text "hello". -/
def helloBytes : List Byte := [104, 101, 108, 108, 111]

/-- A descriptor with digest "sha256:abc". -/
def descAbc : Descriptor := ⟨"text/plain", ⟨"sha256:abc"⟩, 5, []⟩

/-- Another descriptor with the same digest "sha256:abc". -/
def descAbcJson : Descriptor := ⟨"application/json", ⟨"sha256:abc"⟩, 7, []⟩

/-- The bytes of the text "hi". -/
def hiBytes : List Byte := [104, 105]

/-- A descriptor with digest "sha256:def". -/
def descDef : Descriptor := ⟨"text/plain", ⟨"sha256:def"⟩, 2, []⟩

/-- A stream that gives "he", then "llo" with `io.EOF`; its `Close` succeeds. -/
def helloStream : ReadCloser :=
  ⟨[⟨[104, 101], none⟩, ⟨[108, 108, 111], some GoError.EOF⟩], none, 0⟩

/-- A fetcher that opens `helloStream` for every descriptor. -/
def helloFetcher : Fetcher := ⟨fun _ => (some helloStream, none)⟩

/-- A fetcher whose `Fetch` fails and opens nothing. -/
def failingFetcher : Fetcher := ⟨fun _ => (none, some (GoError.other "fetch failed"))⟩

/-- A stream that gives "he" and then fails. -/
def brokenStream : ReadCloser :=
  ⟨[⟨[104, 101], none⟩, ⟨[], some (GoError.other "connection reset")⟩], none, 0⟩

/-- A fetcher that opens `brokenStream` for every descriptor. -/
def brokenFetcher : Fetcher := ⟨fun _ => (some brokenStream, none)⟩

/-- A stream that gives "hello" with `io.EOF` and whose `Close` fails. -/
def closeFailStream : ReadCloser :=
  ⟨[⟨helloBytes, some GoError.EOF⟩], some (GoError.other "close failed"), 0⟩

/-- A fetcher that opens `closeFailStream` for every descriptor. -/
def closeFailFetcher : Fetcher := ⟨fun _ => (some closeFailStream, none)⟩

/-- A fetcher whose `Fetch` returns an error together with an open stream. -/
def streamAndErrorFetcher : Fetcher :=
  ⟨fun _ => (some helloStream, some (GoError.other "fetch failed"))⟩

/-- The descriptor that "repo:tag" resolves to. -/
def descD : Descriptor := ⟨"application/vnd.oci.image.manifest.v1+json", ⟨"sha256:d"⟩, 42, []⟩

/-- A discoverer that returns the artifacts A1, A2 for `descD` and the example type,
and nothing otherwise. -/
def exampleDiscoverer : Discoverer String :=
  ⟨fun desc t =>
    if desc = descD ∧ t = "application/vnd.example+type" then (Slice.of ["A1", "A2"], none)
    else (Slice.nil, none)⟩

/-- A resolver that resolves every reference to `descD` and hands out
`exampleDiscoverer`. -/
def exampleResolver : Resolver String :=
  ⟨fun ref => (ref, descD, none), fun _ => (some exampleDiscoverer, none)⟩

/-- A resolver whose `Resolve` fails, returning a descriptor alongside the error. -/
def unresolvedResolver : Resolver String :=
  ⟨fun ref => (ref, descD, some (GoError.other "not found")),
    fun _ => (some exampleDiscoverer, none)⟩

/-- A resolver whose discoverer fails and returns a non-empty list with its error. -/
def partialResolver : Resolver String :=
  ⟨fun ref => (ref, descD, none),
    fun _ => (some ⟨fun _ _ => (Slice.of ["A1"], some (GoError.other "discovery failed"))⟩, none)⟩

/-- A heap with one array, holding "hello". -/
def helloHeap : Mem.Heap := ⟨[helloBytes]⟩

/-- The slice over the whole array of `helloHeap`. -/
def helloRef : Mem.SliceRef := Mem.SliceRef.ref 0 0 5

/-- The slice over the first two bytes of the same array. -/
def heRef : Mem.SliceRef := Mem.SliceRef.ref 0 0 2

/-- The world in which `helloRef` was stored under "sha256:abc". -/
def helloWorld : Mem.World := ⟨helloHeap, Mem.NewMemoryStore.Set descAbc helloRef⟩

/-! ## Lemmas on the store -/

theorem Set_content_self (s : MemoryStore) (d : Descriptor) (b : Slice Byte) :
    (s.Set d b).content d.Digest.String = some b := by
  simp [MemoryStore.Set]

theorem foldl_Set_content_none (calls : List (Descriptor × Slice Byte)) (k : String) :
    ∀ s : MemoryStore, s.content k = none →
      (∀ c ∈ calls, c.1.Digest.String ≠ k) →
      (calls.foldl (fun s c => s.Set c.1 c.2) s).content k = none := by
  induction calls with
  | nil => intro s hs _; simpa using hs
  | cons c rest ih =>
    intro s hs hk
    simp only [List.foldl_cons]
    apply ih
    · have hc : k ≠ c.1.Digest.String := fun h => hk c (List.mem_cons_self _ _) h.symm
      simp [MemoryStore.Set, hc, hs]
    · intro c1 hc1
      exact hk c1 (List.mem_cons_of_mem _ hc1)

theorem Digest_String_injective (a b : Digest) (h : a.String = b.String) : a = b := by
  cases a; cases b; simpa [Digest.String] using h

/-! ## Claims on Set, Get and ReaderAt -/

/-- C1: for every store state, descriptor `d` and byte sequence `b`, after
`Set(d, b)` the call `Get(d)` returns exactly `(b, true)`, whatever the store
held for the digest of `d` before. -/
theorem C1_Get_after_Set (s : MemoryStore) (d : Descriptor) (b : Slice Byte) :
    (s.Set d b).Get d = (b, true) := by
  simp [MemoryStore.Set, MemoryStore.Get]

/-- C2 as stated fails: the descriptor `descAbcJson` was never passed to `Set`
(only `descAbc` was, which differs from it in media type and size), yet `Get`
finds the bytes and `ReaderAt` returns a handle, because both descriptors carry
the digest "sha256:abc". -/
theorem C2_never_passed_counterexample :
    descAbcJson ∉ [(descAbc, Slice.of helloBytes)].map Prod.fst ∧
    (setSequence [(descAbc, Slice.of helloBytes)]).Get descAbcJson
      = (Slice.of helloBytes, true) ∧
    (setSequence [(descAbc, Slice.of helloBytes)]).ReaderAt descAbcJson
      = (some (newReaderAt (Slice.of helloBytes)), none) := by
  refine ⟨by decide, ?_, ?_⟩
  · simp [setSequence, MemoryStore.Set, MemoryStore.Get, descAbc, descAbcJson]
  · simp [setSequence, MemoryStore.Set, MemoryStore.ReaderAt, descAbc, descAbcJson]

/-- C2 amended: for every store obtained from `NewMemoryStore()` by a finite
sequence of `Set` calls and every descriptor `d` whose digest differs from the
digest of every descriptor passed to `Set`, `Get(d)` returns the nil slice and
`false`, and `ReaderAt(d)` returns a nil handle and `ErrNotFound`. -/
theorem C2_absent_digest_not_found (calls : List (Descriptor × Slice Byte)) (d : Descriptor)
    (h : ∀ c ∈ calls, c.1.Digest ≠ d.Digest) :
    (setSequence calls).Get d = (Slice.nil, false) ∧
    (setSequence calls).ReaderAt d = (none, some GoError.ErrNotFound) := by
  have hk : (setSequence calls).content d.Digest.String = none := by
    apply foldl_Set_content_none calls d.Digest.String NewMemoryStore rfl
    intro c hc hEq
    exact h c hc (Digest_String_injective _ _ hEq)
  simp [MemoryStore.Get, MemoryStore.ReaderAt, hk]

/-- Witness for C2 amended: after `Set(descAbc, "hello")` the descriptor `descDef`
is not found. -/
theorem C2_absent_digest_not_found_witness :
    (setSequence [(descAbc, Slice.of helloBytes)]).Get descDef = (Slice.nil, false) ∧
    (setSequence [(descAbc, Slice.of helloBytes)]).ReaderAt descDef
      = (none, some GoError.ErrNotFound) :=
  C2_absent_digest_not_found [(descAbc, Slice.of helloBytes)] descDef (by decide)

theorem copy_getElem? {α : Type} (dst src : List α) (j : Nat) (hj : j < (copy dst src).2) :
    (copy dst src).1[j]? = src[j]? := by
  simp only [copy] at hj ⊢
  have h1 : j < (List.take (min dst.length src.length) src).length := by
    simp only [List.length_take]; omega
  rw [List.getElem?_append_left h1, List.getElem?_take]
  simp [hj]

/-- C3: when the digest of `d` maps to `b`, `ReaderAt(d)` succeeds with a handle
`h` whose `Size()` is `len(b)`; for a buffer `p` of any length `k` and an offset `o`
with `0 <= o < len(b)`, `ReadAt(p, o)` returns `n = min(k, len(b) - o)`, the first `n`
bytes of the buffer are `b[o .. o+n)`, and the error is `io.EOF` exactly when
`n < k` and nil otherwise; for `o >= len(b)` it returns 0 bytes and `io.EOF` and
leaves the buffer as it was. -/
theorem C3_ReaderAt_reads_stored_bytes (s : MemoryStore) (d : Descriptor) (b : Slice Byte)
    (hb : s.content d.Digest.String = some b) :
    ∃ h : readerAt, s.ReaderAt d = (some h, none) ∧ h.Size = (b.len : Int) ∧
      ∀ (p : List Byte) (o : Int),
        (0 ≤ o → o < (b.len : Int) →
          (((h.ReadAt p o).2.1 : Nat) : Int) = min (p.length : Int) ((b.len : Int) - o) ∧
          (∀ j : Nat, j < (h.ReadAt p o).2.1 →
            (h.ReadAt p o).1[j]? = b.toList[o.toNat + j]?) ∧
          ((h.ReadAt p o).2.2 = some GoError.EOF ↔ (h.ReadAt p o).2.1 < p.length) ∧
          ((h.ReadAt p o).2.2 = none ↔ ¬ (h.ReadAt p o).2.1 < p.length)) ∧
        ((b.len : Int) ≤ o → h.ReadAt p o = (p, 0, some GoError.EOF)) := by
  refine ⟨newReaderAt b, by simp [MemoryStore.ReaderAt, hb], rfl, ?_⟩
  intro p o
  constructor
  · intro h0 hlt
    have hn : ¬ o < 0 := by omega
    have hge : ¬ o ≥ (b.len : Int) := by omega
    have hR : (newReaderAt b).ReadAt p o =
        ((copy p (b.toList.drop o.toNat)).1, (copy p (b.toList.drop o.toNat)).2,
          if (copy p (b.toList.drop o.toNat)).2 < p.length then some GoError.EOF else none) := by
      simp only [readerAt.ReadAt, newReaderAt, bytes.NewReader, bytes.Reader.ReadAt, if_neg hn,
        if_neg hge]
    rw [hR]
    refine ⟨?_, ?_, ?_, ?_⟩
    · simp only [copy, List.length_drop, Slice.len] at hlt ⊢
      omega
    · intro j hj
      rw [copy_getElem? _ _ j hj, List.getElem?_drop]
    · by_cases hc : (copy p (b.toList.drop o.toNat)).2 < p.length <;> simp [hc]
    · by_cases hc : (copy p (b.toList.drop o.toNat)).2 < p.length <;> simp [hc]
  · intro hge
    have hn : ¬ o < 0 := by
      have : (0 : Int) ≤ (b.len : Int) := Int.ofNat_nonneg _
      omega
    simp only [readerAt.ReadAt, newReaderAt, bytes.NewReader, bytes.Reader.ReadAt, if_neg hn]
    simp [hge]

/-- Witness for C3: a store holding "hello" under "sha256:abc". -/
theorem C3_ReaderAt_reads_stored_bytes_witness :
    ∃ h : readerAt, (NewMemoryStore.Set descAbc (Slice.of helloBytes)).ReaderAt descAbc
        = (some h, none) ∧ h.Size = ((Slice.of helloBytes).len : Int) ∧
      ∀ (p : List Byte) (o : Int),
        (0 ≤ o → o < ((Slice.of helloBytes).len : Int) →
          (((h.ReadAt p o).2.1 : Nat) : Int)
            = min (p.length : Int) (((Slice.of helloBytes).len : Int) - o) ∧
          (∀ j : Nat, j < (h.ReadAt p o).2.1 →
            (h.ReadAt p o).1[j]? = (Slice.of helloBytes).toList[o.toNat + j]?) ∧
          ((h.ReadAt p o).2.2 = some GoError.EOF ↔ (h.ReadAt p o).2.1 < p.length) ∧
          ((h.ReadAt p o).2.2 = none ↔ ¬ (h.ReadAt p o).2.1 < p.length)) ∧
        (((Slice.of helloBytes).len : Int) ≤ o → h.ReadAt p o = (p, 0, some GoError.EOF)) :=
  C3_ReaderAt_reads_stored_bytes (NewMemoryStore.Set descAbc (Slice.of helloBytes)) descAbc
    (Slice.of helloBytes) (Set_content_self _ _ _)

/-! ## Claims on the fetch handler -/

theorem readLoop_chunks (chunks : List (List Byte)) (last : List Byte) (rest : List ReadStep) :
    ∀ b : List Byte,
      ioutil.readLoop (chunks.map (fun c => ⟨c, none⟩) ++ ⟨last, some GoError.EOF⟩ :: rest) b
        = (b ++ chunks.flatten ++ last, none, rest) := by
  induction chunks with
  | nil => intro b; simp [ioutil.readLoop]
  | cons c cs ih => intro b; simp [ioutil.readLoop, ih, List.append_assoc]

theorem FetchHandler_fetch_error (s : MemoryStore) (fetcher : Fetcher) (d : Descriptor)
    (rc : Option ReadCloser) (e : GoError) (hf : fetcher.Fetch d = (rc, some e)) :
    s.FetchHandler fetcher d = ⟨some (Slice.nil, some e), s, rc⟩ := by
  unfold MemoryStore.FetchHandler
  rw [hf]
  cases rc <;> rfl

theorem FetchHandler_read_error (s : MemoryStore) (fetcher : Fetcher) (d : Descriptor)
    (rc rc1 : ReadCloser) (c : Slice Byte) (e : GoError)
    (hf : fetcher.Fetch d = (some rc, none)) (hr : ioutil.ReadAll rc = ((c, some e), rc1)) :
    s.FetchHandler fetcher d = ⟨some (Slice.nil, some e), s, some rc1.Close.2⟩ := by
  unfold MemoryStore.FetchHandler
  rw [hf]
  simp only [hr]

theorem FetchHandler_read_ok (s : MemoryStore) (fetcher : Fetcher) (d : Descriptor)
    (rc rc1 : ReadCloser) (c : Slice Byte)
    (hf : fetcher.Fetch d = (some rc, none)) (hr : ioutil.ReadAll rc = ((c, none), rc1)) :
    s.FetchHandler fetcher d = ⟨some (Slice.nil, none), s.Set d c, some rc1.Close.2⟩ := by
  unfold MemoryStore.FetchHandler
  rw [hf]
  simp only [hr]

/-- C4: when an invocation of the handler fails because `Fetch` returns an error
`e`, or because draining the opened stream returns an error `e`, it returns
exactly `e` with a nil child list and the store is the one it was before; so
`Get(d)` is unchanged, and reports `false` when the digest of `d` was absent. -/
theorem C4_failed_fetch_leaves_store (s : MemoryStore) (fetcher : Fetcher) (d : Descriptor)
    (e : GoError)
    (h : (fetcher.Fetch d).2 = some e ∨
      ∃ rc, fetcher.Fetch d = (some rc, none) ∧ (ioutil.ReadAll rc).1.2 = some e) :
    (s.FetchHandler fetcher d).ret = some (Slice.nil, some e) ∧
    (s.FetchHandler fetcher d).store = s ∧
    (s.FetchHandler fetcher d).store.Get d = s.Get d ∧
    (s.content d.Digest.String = none → ((s.FetchHandler fetcher d).store.Get d).2 = false) := by
  have key : (s.FetchHandler fetcher d).ret = some (Slice.nil, some e) ∧
      (s.FetchHandler fetcher d).store = s := by
    rcases h with h | ⟨rc, hf, hr⟩
    · have hf : fetcher.Fetch d = ((fetcher.Fetch d).1, some e) := by rw [← h]
      rw [FetchHandler_fetch_error s fetcher d _ e hf]
      exact ⟨rfl, rfl⟩
    · have hR : ioutil.ReadAll rc = (((ioutil.ReadAll rc).1.1, some e), (ioutil.ReadAll rc).2) := by
        rw [← hr]
      rw [FetchHandler_read_error s fetcher d rc _ _ e hf hR]
      exact ⟨rfl, rfl⟩
  refine ⟨key.1, key.2, by rw [key.2], ?_⟩
  intro habs
  rw [key.2]
  simp [MemoryStore.Get, habs]

/-- Witness for C4: a failing `Fetch`, and a stream that fails while it is drained,
both on the empty store. -/
theorem C4_failed_fetch_leaves_store_witness :
    ((NewMemoryStore.FetchHandler failingFetcher descAbc).ret
        = some (Slice.nil, some (GoError.other "fetch failed")) ∧
      (NewMemoryStore.FetchHandler failingFetcher descAbc).store = NewMemoryStore ∧
      (NewMemoryStore.FetchHandler failingFetcher descAbc).store.Get descAbc
        = NewMemoryStore.Get descAbc ∧
      (NewMemoryStore.content descAbc.Digest.String = none →
        ((NewMemoryStore.FetchHandler failingFetcher descAbc).store.Get descAbc).2 = false)) ∧
    ((NewMemoryStore.FetchHandler brokenFetcher descAbc).ret
        = some (Slice.nil, some (GoError.other "connection reset")) ∧
      (NewMemoryStore.FetchHandler brokenFetcher descAbc).store = NewMemoryStore ∧
      (NewMemoryStore.FetchHandler brokenFetcher descAbc).store.Get descAbc
        = NewMemoryStore.Get descAbc ∧
      (NewMemoryStore.content descAbc.Digest.String = none →
        ((NewMemoryStore.FetchHandler brokenFetcher descAbc).store.Get descAbc).2 = false)) :=
  ⟨C4_failed_fetch_leaves_store NewMemoryStore failingFetcher descAbc
      (GoError.other "fetch failed") (Or.inl rfl),
   C4_failed_fetch_leaves_store NewMemoryStore brokenFetcher descAbc
      (GoError.other "connection reset") (Or.inr ⟨brokenStream, rfl, rfl⟩)⟩

/-- C5: when `Fetch(d)` opens a stream that drains without error to the bytes `c`
(of any length and content), one invocation of the handler on `d` returns a nil
error and a child list of length 0, and afterwards `Get(d)` is `(c, true)`. -/
theorem C5_fetch_stores_content (s : MemoryStore) (fetcher : Fetcher) (d : Descriptor)
    (rc : ReadCloser) (c : Slice Byte)
    (hf : fetcher.Fetch d = (some rc, none))
    (hr : (ioutil.ReadAll rc).1 = (c, none)) :
    ∃ children : Slice Descriptor,
      (s.FetchHandler fetcher d).ret = some (children, none) ∧ children.len = 0 ∧
      (s.FetchHandler fetcher d).store.Get d = (c, true) := by
  have hR : ioutil.ReadAll rc = ((c, none), (ioutil.ReadAll rc).2) := by rw [← hr]
  rw [FetchHandler_read_ok s fetcher d rc _ c hf hR]
  exact ⟨Slice.nil, rfl, rfl, by simp [MemoryStore.Set, MemoryStore.Get]⟩

/-- Witness for C5: the stream "hello" fetched for the digest "sha256:abc". -/
theorem C5_fetch_stores_content_witness :
    ∃ children : Slice Descriptor,
      (NewMemoryStore.FetchHandler helloFetcher descAbc).ret = some (children, none) ∧
      children.len = 0 ∧
      (NewMemoryStore.FetchHandler helloFetcher descAbc).store.Get descAbc
        = (Slice.of helloBytes, true) :=
  C5_fetch_stores_content NewMemoryStore helloFetcher descAbc helloStream (Slice.of helloBytes)
    rfl rfl

/-! ## Claims on Discover -/

theorem Discover_resolve_error {A : Type} (resolver : Resolver A) (ref t : String)
    (name : String) (D : Descriptor) (e : GoError)
    (hr : resolver.Resolve ref = (name, D, some e)) :
    Discover resolver ref t
      = ⟨some (Descriptor.zero, Slice.nil, some e), [Call.Resolve ref]⟩ := by
  unfold Discover
  rw [hr]

theorem Discover_discoverer_error {A : Type} (resolver : Resolver A) (ref t : String)
    (name : String) (D : Descriptor) (v : Option (Discoverer A)) (e : GoError)
    (hr : resolver.Resolve ref = (name, D, none))
    (hd : resolver.Discoverer ref = (v, some e)) :
    Discover resolver ref t
      = ⟨some (Descriptor.zero, Slice.nil, some e), [Call.Resolve ref, Call.Discoverer ref]⟩ := by
  unfold Discover
  rw [hr]
  simp only [hd]

theorem Discover_nil_discoverer {A : Type} (resolver : Resolver A) (ref t : String)
    (name : String) (D : Descriptor)
    (hr : resolver.Resolve ref = (name, D, none))
    (hd : resolver.Discoverer ref = (none, none)) :
    Discover resolver ref t = ⟨none, [Call.Resolve ref, Call.Discoverer ref]⟩ := by
  unfold Discover
  rw [hr]
  simp only [hd]

theorem Discover_discover_error {A : Type} (resolver : Resolver A) (ref t : String)
    (name : String) (D : Descriptor) (v : Discoverer A) (L : Slice A) (e : GoError)
    (hr : resolver.Resolve ref = (name, D, none))
    (hd : resolver.Discoverer ref = (some v, none))
    (hl : v.Discover D t = (L, some e)) :
    Discover resolver ref t
      = ⟨some (Descriptor.zero, Slice.nil, some e),
          [Call.Resolve ref, Call.Discoverer ref, Call.Discover D t]⟩ := by
  unfold Discover
  rw [hr]
  simp only [hd, hl]

theorem Discover_ok {A : Type} (resolver : Resolver A) (ref t : String)
    (name : String) (D : Descriptor) (v : Discoverer A) (L : Slice A)
    (hr : resolver.Resolve ref = (name, D, none))
    (hd : resolver.Discoverer ref = (some v, none))
    (hl : v.Discover D t = (L, none)) :
    Discover resolver ref t
      = ⟨some (D, L, none), [Call.Resolve ref, Call.Discoverer ref, Call.Discover D t]⟩ := by
  unfold Discover
  rw [hr]
  simp only [hd, hl]

/-- C6: when `Resolve(ref)` succeeds with descriptor `D`, `Discoverer(ref)` succeeds
with a discoverer `v`, and `v.Discover(D, t)` succeeds with the list `L`, then
`Discover(resolver, ref, t)` returns `(D, L, nil)` with `L` as it was returned (same
elements, order and length, also when empty), and the calls made are `Resolve(ref)`,
`Discoverer(ref)` and `Discover(D, t)`, in this order. -/
theorem C6_Discover_returns_resolved_and_list {A : Type} (resolver : Resolver A)
    (ref t name : String) (D : Descriptor) (v : Discoverer A) (L : Slice A)
    (hr : resolver.Resolve ref = (name, D, none))
    (hd : resolver.Discoverer ref = (some v, none))
    (hl : v.Discover D t = (L, none)) :
    (Discover resolver ref t).ret = some (D, L, none) ∧
    (Discover resolver ref t).calls
      = [Call.Resolve ref, Call.Discoverer ref, Call.Discover D t] := by
  rw [Discover_ok resolver ref t name D v L hr hd hl]
  exact ⟨rfl, rfl⟩

/-- Witness for C6: "repo:tag" resolves to `descD`, for which the discoverer returns
the artifacts A1 and A2. -/
theorem C6_Discover_returns_resolved_and_list_witness :
    (Discover exampleResolver "repo:tag" "application/vnd.example+type").ret
      = some (descD, Slice.of ["A1", "A2"], none) ∧
    (Discover exampleResolver "repo:tag" "application/vnd.example+type").calls
      = [Call.Resolve "repo:tag", Call.Discoverer "repo:tag",
          Call.Discover descD "application/vnd.example+type"] :=
  C6_Discover_returns_resolved_and_list exampleResolver "repo:tag"
    "application/vnd.example+type" "repo:tag" descD exampleDiscoverer (Slice.of ["A1", "A2"])
    rfl rfl (by decide)

/-- C7: when `Resolve(ref)` returns an error `e`, `Discover` returns the zero
descriptor, a nil artifact list and `e`, and the only capability call made is
`Resolve(ref)`: neither `Discoverer` nor any `Discover` is called. -/
theorem C7_Discover_resolve_failure {A : Type} (resolver : Resolver A) (ref t : String)
    (e : GoError) (h : (resolver.Resolve ref).2.2 = some e) :
    (Discover resolver ref t).ret = some (Descriptor.zero, Slice.nil, some e) ∧
    (Discover resolver ref t).calls = [Call.Resolve ref] := by
  have hr : resolver.Resolve ref
      = ((resolver.Resolve ref).1, (resolver.Resolve ref).2.1, some e) := by rw [← h]
  rw [Discover_resolve_error resolver ref t _ _ e hr]
  exact ⟨rfl, rfl⟩

/-- Witness for C7: a resolver whose `Resolve` fails with "not found". -/
theorem C7_Discover_resolve_failure_witness :
    (Discover unresolvedResolver "repo:tag" "application/vnd.example+type").ret
      = some (Descriptor.zero, Slice.nil, some (GoError.other "not found")) ∧
    (Discover unresolvedResolver "repo:tag" "application/vnd.example+type").calls
      = [Call.Resolve "repo:tag"] :=
  C7_Discover_resolve_failure unresolvedResolver "repo:tag" "application/vnd.example+type"
    (GoError.other "not found") rfl

/-- C8: `Discover` returns no partial results.  It returns a non-nil error `e`
exactly when `e` is the error of the first failing step among `Resolve`, obtaining
the discoverer, and the `Discover` of the discoverer; and whenever it returns a
non-nil error the returned descriptor is the zero value and the returned list is
nil, whatever descriptor `Resolve` had produced and whatever list the failing
discovery returned with its error. -/
theorem C8_Discover_no_partial_results {A : Type} (resolver : Resolver A) (ref t : String) :
    (∀ e : GoError,
      (∃ D L, (Discover resolver ref t).ret = some (D, L, some e)) ↔
        firstFailure resolver ref t = some e) ∧
    (∀ (D : Descriptor) (L : Slice A) (e : GoError),
      (Discover resolver ref t).ret = some (D, L, some e) →
        D = Descriptor.zero ∧ L = Slice.nil) := by
  rcases hr : resolver.Resolve ref with ⟨name, D0, _ | e0⟩
  · rcases hd : resolver.Discoverer ref with ⟨v, _ | e1⟩
    · cases v with
      | none =>
        rw [Discover_nil_discoverer resolver ref t name D0 hr hd]
        simp [firstFailure, hr, hd]
      | some v =>
        rcases hl : v.Discover D0 t with ⟨L0, _ | e2⟩
        · rw [Discover_ok resolver ref t name D0 v L0 hr hd hl]
          simp [firstFailure, hr, hd, hl]
        · rw [Discover_discover_error resolver ref t name D0 v L0 e2 hr hd hl]
          simp only [firstFailure, hr, hd, hl, Option.some.injEq, Prod.mk.injEq]
          refine ⟨fun e => ⟨?_, ?_⟩, ?_⟩
          · rintro ⟨D, L, _, _, h⟩; exact h
          · intro h; exact ⟨Descriptor.zero, Slice.nil, rfl, rfl, h⟩
          · rintro D L e ⟨h1, h2, _⟩; exact ⟨h1.symm, h2.symm⟩
    · rw [Discover_discoverer_error resolver ref t name D0 v e1 hr hd]
      simp only [firstFailure, hr, hd, Option.some.injEq, Prod.mk.injEq]
      refine ⟨fun e => ⟨?_, ?_⟩, ?_⟩
      · rintro ⟨D, L, _, _, h⟩; exact h
      · intro h; exact ⟨Descriptor.zero, Slice.nil, rfl, rfl, h⟩
      · rintro D L e ⟨h1, h2, _⟩; exact ⟨h1.symm, h2.symm⟩
  · rw [Discover_resolve_error resolver ref t name D0 e0 hr]
    simp only [firstFailure, hr, Option.some.injEq, Prod.mk.injEq]
    refine ⟨fun e => ⟨?_, ?_⟩, ?_⟩
    · rintro ⟨D, L, _, _, h⟩; exact h
    · intro h; exact ⟨Descriptor.zero, Slice.nil, rfl, rfl, h⟩
    · rintro D L e ⟨h1, h2, _⟩; exact ⟨h1.symm, h2.symm⟩

/-- Witness for C8: `Resolve` succeeds with `descD`, the discovery fails and returns
a non-empty list with its error; `Discover` returns that error with the zero
descriptor and a nil list. -/
theorem C8_Discover_no_partial_results_witness :
    (Discover partialResolver "repo:tag" "application/vnd.example+type").ret
      = some (Descriptor.zero, Slice.nil, some (GoError.other "discovery failed")) ∧
    firstFailure partialResolver "repo:tag" "application/vnd.example+type"
      = some (GoError.other "discovery failed") ∧
    (Descriptor.zero = Descriptor.zero ∧ (Slice.nil : Slice String) = Slice.nil) :=
  ⟨rfl,
   ((C8_Discover_no_partial_results partialResolver "repo:tag"
      "application/vnd.example+type").1 (GoError.other "discovery failed")).1
      ⟨Descriptor.zero, Slice.nil, rfl⟩,
   (C8_Discover_no_partial_results partialResolver "repo:tag"
      "application/vnd.example+type").2 Descriptor.zero Slice.nil
      (GoError.other "discovery failed") rfl⟩

/-! ## Errors and release of the stream in the fetch handler -/

/-- C9 as stated fails: the stream opened by `closeFailFetcher` drains to "hello",
its `Close` is called once during the invocation and returns the error
"close failed", and the invocation returns a nil error. -/
theorem C9_close_error_dropped_counterexample :
    closeFailFetcher.Fetch descAbc = (some closeFailStream, none) ∧
    (ioutil.ReadAll closeFailStream).2.Close.1 = some (GoError.other "close failed") ∧
    (NewMemoryStore.FetchHandler closeFailFetcher descAbc).stream
      = some ⟨[], some (GoError.other "close failed"), 1⟩ ∧
    (NewMemoryStore.FetchHandler closeFailFetcher descAbc).ret = some (Slice.nil, none) := by
  decide

/-- C9 amended: an error returned by `Fetch` or by the read-to-end of the opened
stream is returned by the invocation verbatim, hence non-nil; the error returned
by the stream's `Close` is dropped, so that when `Fetch` and the read-to-end
succeed the invocation returns a nil error whatever `Close` returns. -/
theorem C9_fetch_and_read_errors_returned (s : MemoryStore) (fetcher : Fetcher)
    (d : Descriptor) :
    (∀ e : GoError, (fetcher.Fetch d).2 = some e →
      (s.FetchHandler fetcher d).ret = some (Slice.nil, some e)) ∧
    (∀ (rc : ReadCloser) (e : GoError), fetcher.Fetch d = (some rc, none) →
      (ioutil.ReadAll rc).1.2 = some e →
      (s.FetchHandler fetcher d).ret = some (Slice.nil, some e)) ∧
    (∀ rc : ReadCloser, fetcher.Fetch d = (some rc, none) →
      (ioutil.ReadAll rc).1.2 = none →
      (s.FetchHandler fetcher d).ret = some (Slice.nil, none)) := by
  refine ⟨?_, ?_, ?_⟩
  · intro e h
    have hf : fetcher.Fetch d = ((fetcher.Fetch d).1, some e) := by rw [← h]
    rw [FetchHandler_fetch_error s fetcher d _ e hf]
  · intro rc e hf hr
    have hR : ioutil.ReadAll rc = (((ioutil.ReadAll rc).1.1, some e), (ioutil.ReadAll rc).2) := by
      rw [← hr]
    rw [FetchHandler_read_error s fetcher d rc _ _ e hf hR]
  · intro rc hf hr
    have hR : ioutil.ReadAll rc = (((ioutil.ReadAll rc).1.1, none), (ioutil.ReadAll rc).2) := by
      rw [← hr]
    rw [FetchHandler_read_ok s fetcher d rc _ _ hf hR]

/-- Witness for C9 amended: a failing `Fetch`, a stream that fails while drained,
and a stream that drains but whose `Close` fails. -/
theorem C9_fetch_and_read_errors_returned_witness :
    (NewMemoryStore.FetchHandler failingFetcher descAbc).ret
      = some (Slice.nil, some (GoError.other "fetch failed")) ∧
    (NewMemoryStore.FetchHandler brokenFetcher descAbc).ret
      = some (Slice.nil, some (GoError.other "connection reset")) ∧
    (NewMemoryStore.FetchHandler closeFailFetcher descAbc).ret = some (Slice.nil, none) :=
  ⟨(C9_fetch_and_read_errors_returned NewMemoryStore failingFetcher descAbc).1
      (GoError.other "fetch failed") rfl,
   (C9_fetch_and_read_errors_returned NewMemoryStore brokenFetcher descAbc).2.1
      brokenStream (GoError.other "connection reset") rfl rfl,
   (C9_fetch_and_read_errors_returned NewMemoryStore closeFailFetcher descAbc).2.2
      closeFailStream rfl rfl⟩

/-- C10 as stated fails: `streamAndErrorFetcher` returns an open stream together
with its error; the invocation returns the error and the stream is left as it
was, with no `Close` call made on it. -/
theorem C10_stream_left_open_counterexample :
    streamAndErrorFetcher.Fetch descAbc
      = (some helloStream, some (GoError.other "fetch failed")) ∧
    (NewMemoryStore.FetchHandler streamAndErrorFetcher descAbc).ret
      = some (Slice.nil, some (GoError.other "fetch failed")) ∧
    (NewMemoryStore.FetchHandler streamAndErrorFetcher descAbc).stream = some helloStream ∧
    helloStream.closeCalls = 0 := by
  decide

/-- C10 amended: whenever `Fetch` returns a stream with a nil error, the invocation
calls `Close` on that stream exactly once, after the read-to-end, on the
successful path and on the read-error path alike; when `Fetch` returns an error
the invocation makes no call on a stream, and a stream returned alongside the
error stays as it was. -/
theorem C10_stream_closed_once (s : MemoryStore) (fetcher : Fetcher) (d : Descriptor) :
    (∀ rc : ReadCloser, fetcher.Fetch d = (some rc, none) →
      (s.FetchHandler fetcher d).stream = some (ioutil.ReadAll rc).2.Close.2 ∧
      ∃ rc1 : ReadCloser, (s.FetchHandler fetcher d).stream = some rc1 ∧
        rc1.closeCalls = rc.closeCalls + 1) ∧
    (∀ e : GoError, (fetcher.Fetch d).2 = some e →
      (s.FetchHandler fetcher d).stream = (fetcher.Fetch d).1) := by
  constructor
  · intro rc hf
    have hstream : (s.FetchHandler fetcher d).stream = some (ioutil.ReadAll rc).2.Close.2 := by
      rcases hR : ioutil.ReadAll rc with ⟨⟨c, _ | e⟩, rc1⟩
      · rw [FetchHandler_read_ok s fetcher d rc rc1 c hf hR]
      · rw [FetchHandler_read_error s fetcher d rc rc1 c e hf hR]
    exact ⟨hstream, _, hstream, rfl⟩
  · intro e h
    have hf : fetcher.Fetch d = ((fetcher.Fetch d).1, some e) := by rw [← h]
    rw [FetchHandler_fetch_error s fetcher d _ e hf]

/-- Witness for C10 amended: the stream "hello" and the stream that fails while
drained are both closed once; with a failing `Fetch` no stream is touched. -/
theorem C10_stream_closed_once_witness :
    (∃ rc1 : ReadCloser, (NewMemoryStore.FetchHandler helloFetcher descAbc).stream = some rc1 ∧
      rc1.closeCalls = helloStream.closeCalls + 1) ∧
    (∃ rc1 : ReadCloser, (NewMemoryStore.FetchHandler brokenFetcher descAbc).stream = some rc1 ∧
      rc1.closeCalls = brokenStream.closeCalls + 1) ∧
    (NewMemoryStore.FetchHandler failingFetcher descAbc).stream
      = (failingFetcher.Fetch descAbc).1 :=
  ⟨((C10_stream_closed_once NewMemoryStore helloFetcher descAbc).1 helloStream rfl).2,
   ((C10_stream_closed_once NewMemoryStore brokenFetcher descAbc).1 brokenStream rfl).2,
   (C10_stream_closed_once NewMemoryStore failingFetcher descAbc).2
      (GoError.other "fetch failed") rfl⟩

/-! ## Presence of entries and frame properties of the store -/

theorem Get_found_iff (s : MemoryStore) (d : Descriptor) :
    (s.Get d).2 = true ↔ (s.content d.Digest.String).isSome = true := by
  unfold MemoryStore.Get
  cases s.content d.Digest.String <;> simp

theorem ReaderAt_of_content (s : MemoryStore) (d : Descriptor) (c : Slice Byte)
    (h : s.content d.Digest.String = some c) :
    s.Get d = (c, true) ∧ s.ReaderAt d = (some (newReaderAt c), none) := by
  simp [MemoryStore.Get, MemoryStore.ReaderAt, h]

theorem ReaderAt_of_absent (s : MemoryStore) (d : Descriptor)
    (h : s.content d.Digest.String = none) :
    s.Get d = (Slice.nil, false) ∧ s.ReaderAt d = (none, some GoError.ErrNotFound) := by
  simp [MemoryStore.Get, MemoryStore.ReaderAt, h]

theorem FetchHandler_store_cases (s : MemoryStore) (fetcher : Fetcher) (d : Descriptor) :
    (s.FetchHandler fetcher d).store = s ∨
      ∃ c, (s.FetchHandler fetcher d).store = s.Set d c := by
  rcases hf : fetcher.Fetch d with ⟨rc, _ | e⟩
  · cases rc with
    | none =>
      left
      unfold MemoryStore.FetchHandler
      rw [hf]
    | some rc =>
      rcases hR : ioutil.ReadAll rc with ⟨⟨c, _ | e⟩, rc1⟩
      · right
        exact ⟨c, by rw [FetchHandler_read_ok s fetcher d rc rc1 c hf hR]⟩
      · left
        rw [FetchHandler_read_error s fetcher d rc rc1 c e hf hR]
  · left
    rw [FetchHandler_fetch_error s fetcher d rc e hf]

theorem Set_content_isSome (s : MemoryStore) (d : Descriptor) (b : Slice Byte) (k : String)
    (h : (s.content k).isSome = true) : ((s.Set d b).content k).isSome = true := by
  unfold MemoryStore.Set
  by_cases hk : k = d.Digest.String <;> simp [hk, h]

theorem after_content_isSome (s : MemoryStore) (op : Op) (k : String)
    (h : (s.content k).isSome = true) : ((s.after op).content k).isSome = true := by
  cases op with
  | Set desc content => exact Set_content_isSome s desc content k h
  | Get desc => exact h
  | ReaderAt desc => exact h
  | FetchHandler fetcher desc =>
    show ((s.FetchHandler fetcher desc).store.content k).isSome = true
    rcases FetchHandler_store_cases s fetcher desc with h1 | ⟨c, h1⟩
    · rw [h1]; exact h
    · rw [h1]; exact Set_content_isSome s desc c k h
  | Close hd => exact h

theorem afterAll_content_isSome (ops : List Op) (k : String) :
    ∀ s : MemoryStore, (s.content k).isSome = true →
      ((s.afterAll ops).content k).isSome = true := by
  induction ops with
  | nil => intro s h; exact h
  | cons op rest ih =>
    intro s h
    exact ih (s.after op) (after_content_isSome s op k h)

theorem present_of_content_isSome (s : MemoryStore) (d : Descriptor)
    (h : (s.content d.Digest.String).isSome = true) :
    (s.Get d).2 = true ∧ ∃ r : readerAt, s.ReaderAt d = (some r, none) := by
  obtain ⟨c, hc⟩ := Option.isSome_iff_exists.mp h
  exact ⟨by rw [(ReaderAt_of_content s d c hc).1], _, (ReaderAt_of_content s d c hc).2⟩

/-- C11: entries are never removed.  When the digest of `d` is present in a store
state, it is still present (`Get(d)` reports `true` and `ReaderAt(d)` succeeds)
after any single operation (a `Set` of any descriptor and bytes, a `Get`, a
`ReaderAt`, an invocation of a fetch handler whether it succeeds, fails or
panics, a `Close` of a handle) and after any finite sequence of them; every key
present before a sequence of operations is present after it. -/
theorem C11_entries_never_removed (s : MemoryStore) (d : Descriptor)
    (hd : (s.Get d).2 = true) :
    (∀ op : Op, ((s.after op).Get d).2 = true ∧
      ∃ r : readerAt, (s.after op).ReaderAt d = (some r, none)) ∧
    (∀ ops : List Op, ((s.afterAll ops).Get d).2 = true ∧
      ∃ r : readerAt, (s.afterAll ops).ReaderAt d = (some r, none)) ∧
    (∀ (ops : List Op) (k : String), (s.content k).isSome = true →
      ((s.afterAll ops).content k).isSome = true) := by
  have h0 := (Get_found_iff s d).mp hd
  refine ⟨fun op => ?_, fun ops => ?_, fun ops k hk => afterAll_content_isSome ops k s hk⟩
  · exact present_of_content_isSome _ d (after_content_isSome s op _ h0)
  · exact present_of_content_isSome _ d (afterAll_content_isSome ops _ s h0)

/-- Witness for C11: the store holding "hello" under "sha256:abc". -/
theorem C11_entries_never_removed_witness :
    (∀ op : Op, (((NewMemoryStore.Set descAbc (Slice.of helloBytes)).after op).Get descAbc).2
        = true ∧
      ∃ r : readerAt, ((NewMemoryStore.Set descAbc (Slice.of helloBytes)).after op).ReaderAt
        descAbc = (some r, none)) ∧
    (∀ ops : List Op,
      (((NewMemoryStore.Set descAbc (Slice.of helloBytes)).afterAll ops).Get descAbc).2 = true ∧
      ∃ r : readerAt, ((NewMemoryStore.Set descAbc (Slice.of helloBytes)).afterAll ops).ReaderAt
        descAbc = (some r, none)) ∧
    (∀ (ops : List Op) (k : String),
      ((NewMemoryStore.Set descAbc (Slice.of helloBytes)).content k).isSome = true →
      (((NewMemoryStore.Set descAbc (Slice.of helloBytes)).afterAll ops).content k).isSome
        = true) :=
  C11_entries_never_removed (NewMemoryStore.Set descAbc (Slice.of helloBytes)) descAbc
    (by decide)

/-- C12: `Set` is idempotent.  Performing `Set(d, b)` twice in a row gives the same
store state as performing it once, hence the same `Get` and `ReaderAt` results
for `d` and for every other descriptor. -/
theorem C12_Set_idempotent (s : MemoryStore) (d : Descriptor) (b : Slice Byte) :
    (s.Set d b).Set d b = s.Set d b ∧
    (∀ d1 : Descriptor, ((s.Set d b).Set d b).Get d1 = (s.Set d b).Get d1) ∧
    (∀ d1 : Descriptor, ((s.Set d b).Set d b).ReaderAt d1 = (s.Set d b).ReaderAt d1) := by
  have h : (s.Set d b).Set d b = s.Set d b := by
    unfold MemoryStore.Set
    congr 1
    funext k
    by_cases hk : k = d.Digest.String <;> simp [hk]
  exact ⟨h, fun d1 => by rw [h], fun d1 => by rw [h]⟩

/-! ## Reader handles as values -/

theorem ReadAt_whole (c : Slice Byte) (p : List Byte) (hp : p.length = c.len) :
    (newReaderAt c).ReadAt p 0 =
      (c.toList, c.len, if c.len = 0 then some GoError.EOF else none) := by
  unfold Slice.len at hp
  by_cases h0 : c.toList.length = 0
  · have hc : c.toList = [] := List.length_eq_zero.mp h0
    have hp0 : p = [] := List.length_eq_zero.mp (by omega)
    simp [readerAt.ReadAt, newReaderAt, bytes.NewReader, bytes.Reader.ReadAt, Slice.len, hc, hp0]
  · have hpos : ¬ ((0 : Int) ≥ (c.toList.length : Int)) := by omega
    simp only [readerAt.ReadAt, newReaderAt, bytes.NewReader, bytes.Reader.ReadAt, Slice.len,
      lt_irrefl, if_false, if_neg hpos, if_neg h0, copy, Int.toNat_zero, List.drop_zero, hp,
      min_self, List.take_length]
    have hdrop : List.drop c.toList.length p = [] := by
      rw [← hp]
      exact List.drop_length p
    rw [hdrop, List.append_nil]

theorem newReaderAt_ReadAt_inrange (b : Slice Byte) (p : List Byte) (o : Int)
    (h0 : 0 ≤ o) (hlt : o < (b.len : Int)) :
    ((((newReaderAt b).ReadAt p o).2.1 : Nat) : Int) = min (p.length : Int) ((b.len : Int) - o) ∧
    ∀ j : Nat, j < ((newReaderAt b).ReadAt p o).2.1 →
      ((newReaderAt b).ReadAt p o).1[j]? = b.toList[o.toNat + j]? := by
  have hn : ¬ o < 0 := by omega
  have hge : ¬ o ≥ (b.len : Int) := by omega
  have hR : (newReaderAt b).ReadAt p o =
      ((copy p (b.toList.drop o.toNat)).1, (copy p (b.toList.drop o.toNat)).2,
        if (copy p (b.toList.drop o.toNat)).2 < p.length then some GoError.EOF else none) := by
    simp only [readerAt.ReadAt, newReaderAt, bytes.NewReader, bytes.Reader.ReadAt, if_neg hn,
      if_neg hge]
  rw [hR]
  constructor
  · simp only [copy, List.length_drop, Slice.len] at hlt ⊢
    omega
  · intro j hj
    rw [copy_getElem? _ _ j hj, List.getElem?_drop]

/-! ## Reader handles over shared arrays -/

theorem Mem.bytes_length (hp : Mem.Heap) (r : Mem.SliceRef) (hv : hp.valid r) :
    (hp.bytes r).length = r.len := by
  cases r with
  | nil => rfl
  | ref addr off len =>
    obtain ⟨_, h2⟩ := hv
    simp only [Mem.Heap.bytes, Mem.SliceRef.len, List.length_take, List.length_drop]
    omega

theorem Mem.bytes_grow (hp : Mem.Heap) (extra : List (List Byte)) (r : Mem.SliceRef)
    (hv : hp.valid r) :
    (Mem.Heap.mk (hp.arrays ++ extra)).bytes r = hp.bytes r := by
  cases r with
  | nil => rfl
  | ref addr off len =>
    obtain ⟨h1, _⟩ := hv
    simp only [Mem.Heap.bytes, List.getElem?_append_left h1]

theorem Mem.valid_grow (hp : Mem.Heap) (extra : List (List Byte)) (r : Mem.SliceRef)
    (hv : hp.valid r) : (Mem.Heap.mk (hp.arrays ++ extra)).valid r := by
  cases r with
  | nil => trivial
  | ref addr off len =>
    obtain ⟨h1, h2⟩ := hv
    refine ⟨?_, ?_⟩
    · simp only [List.length_append]; omega
    · simp only [List.getElem?_append_left h1]; exact h2

theorem Mem.FetchHandler_world_cases (w : Mem.World) (fetcher : Fetcher) (d : Descriptor) :
    ∃ (extra : List (List Byte)),
      (w.FetchHandler fetcher d).world.heap = ⟨w.heap.arrays ++ extra⟩ ∧
      ((w.FetchHandler fetcher d).world.store = w.store ∨
        ∃ c, (w.FetchHandler fetcher d).world.store = w.store.Set d c) := by
  unfold Mem.World.FetchHandler
  rcases fetcher.Fetch d with ⟨rc, _ | e⟩
  · cases rc with
    | none => exact ⟨[], by simp, Or.inl rfl⟩
    | some rc =>
      simp only
      rcases hR : Mem.ReadAll w.heap rc with ⟨⟨c, _ | e⟩, rc1, hp1⟩
      · have hh : hp1 = ⟨w.heap.arrays ++ [(ioutil.readLoop rc.pending []).1]⟩ := by
          have := congrArg (fun x => x.2.2) hR
          simpa [Mem.ReadAll, Mem.Heap.alloc] using this.symm
        exact ⟨_, hh, Or.inr ⟨c, rfl⟩⟩
      · have hh : hp1 = ⟨w.heap.arrays ++ [(ioutil.readLoop rc.pending []).1]⟩ := by
          have := congrArg (fun x => x.2.2) hR
          simpa [Mem.ReadAll, Mem.Heap.alloc] using this.symm
        exact ⟨_, hh, Or.inl rfl⟩
  · cases rc <;> exact ⟨[], by simp, Or.inl rfl⟩

theorem Mem.Set_keeps_keys (s : Mem.MemoryStore) (d : Descriptor) (c : Mem.SliceRef)
    (k : String) (h : (s.content k).isSome = true) : ((s.Set d c).content k).isSome = true := by
  unfold Mem.MemoryStore.Set
  by_cases hk : k = d.Digest.String <;> simp [hk, h]

theorem Mem.after_grows (w : Mem.World) (op : Mem.Op) :
    (∃ extra : List (List Byte), (w.after op).heap = ⟨w.heap.arrays ++ extra⟩) ∧
    ∀ k : String, (w.store.content k).isSome = true →
      ((w.after op).store.content k).isSome = true := by
  cases op with
  | Set desc content =>
    exact ⟨⟨[], by simp [Mem.World.after]⟩, fun k hk => Mem.Set_keeps_keys _ _ _ k hk⟩
  | Get desc => exact ⟨⟨[], by simp [Mem.World.after]⟩, fun _ hk => hk⟩
  | ReaderAt desc => exact ⟨⟨[], by simp [Mem.World.after]⟩, fun _ hk => hk⟩
  | Close hd => exact ⟨⟨[], by simp [Mem.World.after]⟩, fun _ hk => hk⟩
  | FetchHandler fetcher desc =>
    obtain ⟨extra, hh, hs⟩ := Mem.FetchHandler_world_cases w fetcher desc
    refine ⟨⟨extra, hh⟩, fun k hk => ?_⟩
    show ((w.FetchHandler fetcher desc).world.store.content k).isSome = true
    rcases hs with hs | ⟨c, hs⟩
    · rw [hs]; exact hk
    · rw [hs]; exact Mem.Set_keeps_keys _ _ _ k hk

theorem Mem.afterAll_grows (ops : List Mem.Op) :
    ∀ w : Mem.World,
      (∃ extra : List (List Byte), (w.afterAll ops).heap = ⟨w.heap.arrays ++ extra⟩) ∧
      ∀ k : String, (w.store.content k).isSome = true →
        ((w.afterAll ops).store.content k).isSome = true := by
  induction ops with
  | nil => intro w; exact ⟨⟨[], by simp [Mem.World.afterAll]⟩, fun _ hk => hk⟩
  | cons op rest ih =>
    intro w
    obtain ⟨⟨e1, h1⟩, k1⟩ := Mem.after_grows w op
    obtain ⟨⟨e2, h2⟩, k2⟩ := ih (w.after op)
    refine ⟨⟨e1 ++ e2, ?_⟩, fun k hk => k2 k (k1 k hk)⟩
    show ((w.after op).afterAll rest).heap = _
    rw [h2, h1, List.append_assoc]

theorem ReadAt_shared_eq_value (hp : Mem.Heap) (r : Mem.SliceRef) (c : List Byte)
    (hc : hp.bytes r = c) (hl : c.length = r.len) (p : List Byte) (o : Int) :
    (Mem.newReaderAt r).ReadAt hp p o = (newReaderAt (Slice.of c)).ReadAt p o := by
  simp only [Mem.readerAt.ReadAt, Mem.newReaderAt, Mem.NewReader, Mem.Reader.ReadAt,
    readerAt.ReadAt, newReaderAt, bytes.NewReader, bytes.Reader.ReadAt, Slice.len, Slice.toList,
    hc, hl]

theorem slice_toList (hp : Mem.Heap) (r : Mem.SliceRef) : (hp.slice r).toList = hp.bytes r := by
  cases r <;> rfl

theorem slice_grow (hp : Mem.Heap) (extra : List (List Byte)) (r : Mem.SliceRef)
    (hv : hp.valid r) : (Mem.Heap.mk (hp.arrays ++ extra)).slice r = hp.slice r := by
  cases r with
  | nil => rfl
  | ref addr off len =>
    simp only [Mem.Heap.slice, Mem.bytes_grow hp extra _ hv]

theorem abs_grow (w : Mem.World) (extra : List (List Byte)) (hw : w.wf) :
    (Mem.World.mk ⟨w.heap.arrays ++ extra⟩ w.store).abs = w.abs := by
  unfold Mem.World.abs
  congr 1
  funext k
  cases hk : w.store.content k with
  | none => rfl
  | some r => simp only [Option.map_some', slice_grow w.heap extra r (hw k r hk)]

theorem abs_Set (hp : Mem.Heap) (s : Mem.MemoryStore) (d : Descriptor) (r : Mem.SliceRef) :
    (Mem.World.mk hp (s.Set d r)).abs = (Mem.World.mk hp s).abs.Set d (hp.slice r) := by
  unfold Mem.World.abs Mem.MemoryStore.Set MemoryStore.Set
  congr 1
  funext k
  by_cases hk : k = d.Digest.String <;> simp [hk]

theorem slice_alloc (hp : Mem.Heap) (data : List Byte) :
    (hp.alloc data).2.slice (hp.alloc data).1 = Slice.of data := by
  simp [Mem.Heap.alloc, Mem.Heap.slice, Mem.Heap.bytes]

/-- The store of the first sections is the abstraction of the store over shared
arrays: `Get` and `ReaderAt` of a world denote the `Get` and `ReaderAt` of its
abstraction, with equal sizes and equal reads, and `Set` and the fetch handler
commute with the abstraction. -/
theorem shared_store_refines (w : Mem.World) (hw : w.wf) (d : Descriptor) :
    w.abs.Get d = (w.heap.slice (w.store.Get d).1, (w.store.Get d).2) ∧
    (∀ r : Mem.SliceRef, w.store.content d.Digest.String = some r →
      w.store.ReaderAt d = (some (Mem.newReaderAt r), none) ∧
      w.abs.ReaderAt d = (some (newReaderAt (w.heap.slice r)), none) ∧
      (Mem.newReaderAt r).Size = (newReaderAt (w.heap.slice r)).Size ∧
      ∀ (p : List Byte) (o : Int),
        (Mem.newReaderAt r).ReadAt w.heap p o = (newReaderAt (w.heap.slice r)).ReadAt p o) ∧
    (w.store.content d.Digest.String = none →
      w.store.ReaderAt d = (none, some GoError.ErrNotFound) ∧
      w.abs.ReaderAt d = (none, some GoError.ErrNotFound)) ∧
    (∀ r : Mem.SliceRef, (w.after (Mem.Op.Set d r)).abs = w.abs.Set d (w.heap.slice r)) ∧
    (∀ fetcher : Fetcher,
      (w.FetchHandler fetcher d).world.abs = (w.abs.FetchHandler fetcher d).store ∧
      (w.FetchHandler fetcher d).ret = (w.abs.FetchHandler fetcher d).ret ∧
      (w.FetchHandler fetcher d).stream = (w.abs.FetchHandler fetcher d).stream) := by
  refine ⟨?_, ?_, ?_, ?_, ?_⟩
  · unfold Mem.World.abs MemoryStore.Get Mem.MemoryStore.Get
    cases hk : w.store.content d.Digest.String <;> simp [hk, Mem.Heap.slice]
  · intro r hr
    have hlen := Mem.bytes_length w.heap r (hw _ r hr)
    refine ⟨by simp [Mem.MemoryStore.ReaderAt, hr],
      by simp [Mem.World.abs, MemoryStore.ReaderAt, hr], ?_, ?_⟩
    · show ((r.len : Nat) : Int) = (((w.heap.slice r).toList.length : Nat) : Int)
      rw [slice_toList, hlen]
    · intro p o
      simp only [Mem.readerAt.ReadAt, Mem.newReaderAt, Mem.NewReader, Mem.Reader.ReadAt,
        readerAt.ReadAt, newReaderAt, bytes.NewReader, bytes.Reader.ReadAt, Slice.len,
        slice_toList, hlen]
  · intro hr
    exact ⟨by simp [Mem.MemoryStore.ReaderAt, hr],
      by simp [Mem.World.abs, MemoryStore.ReaderAt, hr]⟩
  · intro r
    exact abs_Set w.heap w.store d r
  · intro fetcher
    unfold Mem.World.FetchHandler MemoryStore.FetchHandler
    rcases fetcher.Fetch d with ⟨rc, _ | e⟩
    · cases rc with
      | none => exact ⟨rfl, rfl, rfl⟩
      | some rc =>
        simp only [Mem.ReadAll, ioutil.ReadAll]
        cases (ioutil.readLoop rc.pending []).2.1 with
        | none =>
          refine ⟨?_, rfl, rfl⟩
          simp only
          rw [abs_Set, slice_alloc]
          congr 1
          exact abs_grow w _ hw
        | some e =>
          refine ⟨?_, rfl, rfl⟩
          exact abs_grow w _ hw
    · cases rc <;> exact ⟨rfl, rfl, rfl⟩

/-- The handle shares its array with the slice that was passed to `Set`: when the
holder of that slice assigns `b[0] = 88`, a read through the handle made before
gives 88 first.  Such an assignment is made by the caller, not by an operation of
the store. -/
theorem handle_reads_shared_array :
    helloWorld.store.ReaderAt descAbc = (some (Mem.newReaderAt helloRef), none) ∧
    (Mem.newReaderAt helloRef).ReadAt helloHeap [0, 0, 0, 0, 0] 0
      = ([104, 101, 108, 108, 111], 5, none) ∧
    (Mem.newReaderAt helloRef).ReadAt (helloHeap.write helloRef 0 88) [0, 0, 0, 0, 0] 0
      = ([88, 101, 108, 108, 111], 5, none) := by
  decide

/-- C13: a reader handle keeps what it was made over.  Let `h` be returned by
`ReaderAt(d)` while the digest of `d` mapped to a slice `r` holding the bytes `b`.
After any later sequence of store operations, and after a further `Set(d, r2)`
with a slice `r2` of any content and length (also one that lies in the same
array as `r`), `h.Size()` is `len(b)` and every `h.ReadAt`, which reads the array
as the operations left it, returns what a reader over `b` returns: `min(k,
len(b) - o)` bytes equal to `b[o ..]`, and all of `b` for a whole read.  After the
operations `ReaderAt(d)` still succeeds, with a handle over the current entry,
and after `Set(d, r2)` a new `ReaderAt(d)` returns a handle over `r2` whose size
and reads are those of the bytes of `r2`. -/
theorem C13_handle_unchanged_by_store_operations (w : Mem.World) (d : Descriptor)
    (r : Mem.SliceRef) (h : Mem.readerAt)
    (hb : w.store.content d.Digest.String = some r) (hv : w.heap.valid r)
    (hh : w.store.ReaderAt d = (some h, none))
    (ops : List Mem.Op) (r2 : Mem.SliceRef) (hv2 : (w.afterAll ops).heap.valid r2) :
    h.Size = ((w.heap.bytes r).length : Int) ∧
    (∀ (p : List Byte) (o : Int),
      h.ReadAt (w.afterAll ops).heap p o
        = (newReaderAt (Slice.of (w.heap.bytes r))).ReadAt p o) ∧
    (∀ (p : List Byte) (o : Int),
      h.ReadAt ((w.afterAll ops).after (Mem.Op.Set d r2)).heap p o
        = (newReaderAt (Slice.of (w.heap.bytes r))).ReadAt p o) ∧
    (∀ (p : List Byte) (o : Int), 0 ≤ o → o < ((w.heap.bytes r).length : Int) →
      (((h.ReadAt ((w.afterAll ops).after (Mem.Op.Set d r2)).heap p o).2.1 : Nat) : Int)
        = min (p.length : Int) (((w.heap.bytes r).length : Int) - o) ∧
      ∀ j : Nat, j < (h.ReadAt ((w.afterAll ops).after (Mem.Op.Set d r2)).heap p o).2.1 →
        (h.ReadAt ((w.afterAll ops).after (Mem.Op.Set d r2)).heap p o).1[j]?
          = (w.heap.bytes r)[o.toNat + j]?) ∧
    (∀ p : List Byte, p.length = (w.heap.bytes r).length →
      (h.ReadAt ((w.afterAll ops).after (Mem.Op.Set d r2)).heap p 0).1 = w.heap.bytes r) ∧
    (∃ r3 : Mem.SliceRef, (w.afterAll ops).store.content d.Digest.String = some r3 ∧
      (w.afterAll ops).store.ReaderAt d = (some (Mem.newReaderAt r3), none)) ∧
    ∃ h2 : Mem.readerAt,
      ((w.afterAll ops).after (Mem.Op.Set d r2)).store.ReaderAt d = (some h2, none) ∧
      h2.Size = ((((w.afterAll ops).after (Mem.Op.Set d r2)).heap.bytes r2).length : Int) ∧
      (∀ (p : List Byte) (o : Int),
        h2.ReadAt ((w.afterAll ops).after (Mem.Op.Set d r2)).heap p o
          = (newReaderAt (Slice.of (((w.afterAll ops).after (Mem.Op.Set d r2)).heap.bytes
              r2))).ReadAt p o) ∧
      (∀ p : List Byte,
        p.length = (((w.afterAll ops).after (Mem.Op.Set d r2)).heap.bytes r2).length →
        (h2.ReadAt ((w.afterAll ops).after (Mem.Op.Set d r2)).heap p 0).1
          = ((w.afterAll ops).after (Mem.Op.Set d r2)).heap.bytes r2) := by
  have hEq : h = Mem.newReaderAt r := by
    have h1 : w.store.ReaderAt d = (some (Mem.newReaderAt r), none) := by
      simp [Mem.MemoryStore.ReaderAt, hb]
    rw [hh] at h1
    simpa using h1
  subst hEq
  obtain ⟨⟨extra, hgrow⟩, hkeep⟩ := Mem.afterAll_grows ops w
  have hlen : (w.heap.bytes r).length = r.len := Mem.bytes_length w.heap r hv
  have hbytes : (w.afterAll ops).heap.bytes r = w.heap.bytes r := by
    rw [hgrow]
    exact Mem.bytes_grow w.heap extra r hv
  have hheap : ((w.afterAll ops).after (Mem.Op.Set d r2)).heap = (w.afterAll ops).heap := rfl
  have hread : ∀ (p : List Byte) (o : Int),
      (Mem.newReaderAt r).ReadAt (w.afterAll ops).heap p o
        = (newReaderAt (Slice.of (w.heap.bytes r))).ReadAt p o :=
    fun p o => ReadAt_shared_eq_value _ r _ hbytes hlen p o
  have hlen2 : ((w.afterAll ops).heap.bytes r2).length = r2.len :=
    Mem.bytes_length _ r2 hv2
  refine ⟨?_, hread, ?_, ?_, ?_, ?_, Mem.newReaderAt r2, ?_, ?_, ?_, ?_⟩
  · show ((r.len : Nat) : Int) = _
    rw [hlen]
  · intro p o
    rw [hheap]
    exact hread p o
  · intro p o h0 hlt
    rw [hheap, hread p o]
    exact newReaderAt_ReadAt_inrange (Slice.of (w.heap.bytes r)) p o h0 hlt
  · intro p hp
    rw [hheap, hread p 0, ReadAt_whole (Slice.of (w.heap.bytes r)) p hp]
    rfl
  · have hsome : ((w.afterAll ops).store.content d.Digest.String).isSome = true :=
      hkeep _ (by rw [hb]; rfl)
    obtain ⟨r3, hr3⟩ := Option.isSome_iff_exists.mp hsome
    exact ⟨r3, hr3, by simp [Mem.MemoryStore.ReaderAt, hr3]⟩
  · simp [Mem.World.after, Mem.MemoryStore.ReaderAt, Mem.MemoryStore.Set]
  · rw [hheap, hlen2]
    rfl
  · intro p o
    rw [hheap]
    exact ReadAt_shared_eq_value _ r2 _ rfl hlen2 p o
  · intro p hp
    rw [hheap] at hp ⊢
    rw [ReadAt_shared_eq_value _ r2 _ rfl hlen2 p 0,
      ReadAt_whole (Slice.of ((w.afterAll ops).heap.bytes r2)) p hp]
    rfl

/-- Witness for C13: the handle over "hello" is taken; then a fetch under the same
digest fails, a fetch under another digest succeeds, `Get` is called, and the
entry is set to the first two bytes of the same array. -/
theorem C13_handle_unchanged_by_store_operations_witness :
    (∀ p : List Byte, p.length = (helloHeap.bytes helloRef).length →
      ((Mem.newReaderAt helloRef).ReadAt
        ((helloWorld.afterAll [Mem.Op.FetchHandler brokenFetcher descAbc,
          Mem.Op.FetchHandler helloFetcher descDef, Mem.Op.Get descAbc]).after
            (Mem.Op.Set descAbc heRef)).heap p 0).1 = helloHeap.bytes helloRef) ∧
    ∃ h2 : Mem.readerAt,
      ((helloWorld.afterAll [Mem.Op.FetchHandler brokenFetcher descAbc,
          Mem.Op.FetchHandler helloFetcher descDef, Mem.Op.Get descAbc]).after
            (Mem.Op.Set descAbc heRef)).store.ReaderAt descAbc = (some h2, none) ∧
      h2.Size = ((((helloWorld.afterAll [Mem.Op.FetchHandler brokenFetcher descAbc,
          Mem.Op.FetchHandler helloFetcher descDef, Mem.Op.Get descAbc]).after
            (Mem.Op.Set descAbc heRef)).heap.bytes heRef).length : Int) :=
  have w := C13_handle_unchanged_by_store_operations helloWorld descAbc helloRef
    (Mem.newReaderAt helloRef) (by decide) (by decide) (by decide)
    [Mem.Op.FetchHandler brokenFetcher descAbc, Mem.Op.FetchHandler helloFetcher descDef,
      Mem.Op.Get descAbc] heRef (by decide)
  ⟨w.2.2.2.2.1, w.2.2.2.2.2.2.imp (fun _ hx => ⟨hx.1, hx.2.1⟩)⟩

/-- C14: closing a reader handle is a no-op.  For every handle `h`, `Close()` returns
a nil error also after any number of earlier `Close` calls, the handle after any
number of `Close` calls is `h` itself, so `Size()` and every `ReadAt` give the
same results as before, and the store is the same after the `Close` as before. -/
theorem C14_Close_is_noop (s : MemoryStore) (h : readerAt) :
    (∀ n : Nat, (h.closeTimes n).Close.1 = none ∧ h.closeTimes n = h) ∧
    h.Close.2.Size = h.Size ∧
    (∀ (p : List Byte) (o : Int), h.Close.2.ReadAt p o = h.ReadAt p o) ∧
    s.after (Op.Close h) = s := by
  refine ⟨fun n => ⟨rfl, ?_⟩, rfl, fun _ _ => rfl, rfl⟩
  induction n with
  | zero => rfl
  | succ n ih => simp only [readerAt.closeTimes, readerAt.Close, ih]

/-- C15: the store is keyed by the digest alone.  For two descriptors with the same
digest, whatever their other fields, after `Set(d1, b)` both `Get(d2) = (b, true)`
and `ReaderAt(d2)` succeeds with a handle over `b`; and on every store `Get` and
`ReaderAt` give the same results for `d1` as for `d2`. -/
theorem C15_keyed_by_digest (s : MemoryStore) (d1 d2 : Descriptor) (b : Slice Byte)
    (h : d1.Digest = d2.Digest) :
    (s.Set d1 b).Get d2 = (b, true) ∧
    (s.Set d1 b).ReaderAt d2 = (some (newReaderAt b), none) ∧
    s.Get d1 = s.Get d2 ∧
    s.ReaderAt d1 = s.ReaderAt d2 := by
  refine ⟨?_, ?_, ?_, ?_⟩
  · simp [MemoryStore.Set, MemoryStore.Get, h]
  · simp [MemoryStore.Set, MemoryStore.ReaderAt, h]
  · simp [MemoryStore.Get, h]
  · simp [MemoryStore.ReaderAt, h]

/-- Witness for C15: two descriptors of different media type and size that share
the digest "sha256:abc". -/
theorem C15_keyed_by_digest_witness :
    (NewMemoryStore.Set descAbc (Slice.of helloBytes)).Get descAbcJson
      = (Slice.of helloBytes, true) ∧
    (NewMemoryStore.Set descAbc (Slice.of helloBytes)).ReaderAt descAbcJson
      = (some (newReaderAt (Slice.of helloBytes)), none) ∧
    NewMemoryStore.Get descAbc = NewMemoryStore.Get descAbcJson ∧
    NewMemoryStore.ReaderAt descAbc = NewMemoryStore.ReaderAt descAbcJson :=
  C15_keyed_by_digest NewMemoryStore descAbc descAbcJson (Slice.of helloBytes) (by decide)

theorem Set_content_other (s : MemoryStore) (d : Descriptor) (b : Slice Byte) (k : String)
    (hk : k ≠ d.Digest.String) : (s.Set d b).content k = s.content k := by
  simp [MemoryStore.Set, hk]

theorem Set_frame (s : MemoryStore) (d d1 : Descriptor) (b : Slice Byte)
    (h : d1.Digest ≠ d.Digest) :
    (s.Set d b).Get d1 = s.Get d1 ∧ (s.Set d b).ReaderAt d1 = s.ReaderAt d1 := by
  have hk : d1.Digest.String ≠ d.Digest.String :=
    fun hEq => h (Digest_String_injective _ _ hEq)
  unfold MemoryStore.Get MemoryStore.ReaderAt
  rw [Set_content_other s d b _ hk]
  exact ⟨rfl, rfl⟩

/-- C16: `Set` touches one key only.  For descriptors `d` and `d1` of different
digests, `Get(d1)` and the outcome of `ReaderAt(d1)` are the same after `Set(d, b)`
as before it; the same holds for an invocation of a fetch handler on `d` that
returns a nil error. -/
theorem C16_Set_touches_one_key (s : MemoryStore) (d d1 : Descriptor) (b : Slice Byte)
    (h : d1.Digest ≠ d.Digest) :
    (s.Set d b).Get d1 = s.Get d1 ∧
    (s.Set d b).ReaderAt d1 = s.ReaderAt d1 ∧
    ∀ (fetcher : Fetcher) (children : Slice Descriptor),
      (s.FetchHandler fetcher d).ret = some (children, none) →
      (s.FetchHandler fetcher d).store.Get d1 = s.Get d1 ∧
      (s.FetchHandler fetcher d).store.ReaderAt d1 = s.ReaderAt d1 := by
  refine ⟨(Set_frame s d d1 b h).1, (Set_frame s d d1 b h).2, ?_⟩
  intro fetcher children _
  rcases FetchHandler_store_cases s fetcher d with h1 | ⟨c, h1⟩
  · rw [h1]
    exact ⟨rfl, rfl⟩
  · rw [h1]
    exact Set_frame s d d1 c h

/-- Witness for C16: the store holds "hi" under "sha256:def"; a `Set` and a
successful fetch under "sha256:abc" leave that entry as it was. -/
theorem C16_Set_touches_one_key_witness :
    ((NewMemoryStore.Set descDef (Slice.of hiBytes)).Set descAbc (Slice.of helloBytes)).Get
        descDef = (NewMemoryStore.Set descDef (Slice.of hiBytes)).Get descDef ∧
    ((NewMemoryStore.Set descDef (Slice.of hiBytes)).FetchHandler helloFetcher descAbc).store.Get
        descDef = (NewMemoryStore.Set descDef (Slice.of hiBytes)).Get descDef ∧
    ((NewMemoryStore.Set descDef (Slice.of hiBytes)).FetchHandler helloFetcher
        descAbc).store.ReaderAt descDef
      = (NewMemoryStore.Set descDef (Slice.of hiBytes)).ReaderAt descDef :=
  have w := C16_Set_touches_one_key (NewMemoryStore.Set descDef (Slice.of hiBytes)) descAbc
    descDef (Slice.of helloBytes) (by decide)
  ⟨w.1, (w.2.2 helloFetcher Slice.nil rfl).1, (w.2.2 helloFetcher Slice.nil rfl).2⟩

/-- C17: `Get` and `ReaderAt` are read-only and consistent with each other.  Neither
changes the store; `ReaderAt(d)` succeeds (returns a handle and a nil error)
exactly when `Get(d)` reports `true`, and otherwise returns a nil handle and
`ErrNotFound`; when it succeeds, the `Size()` of the handle is the length of the
bytes `Get(d)` returns, and a `ReadAt` at offset 0 into a buffer of that length
returns that many bytes and fills the buffer with exactly those bytes. -/
theorem C17_Get_ReaderAt_consistent (s : MemoryStore) (d : Descriptor) :
    s.after (Op.Get d) = s ∧ s.after (Op.ReaderAt d) = s ∧
    ((∃ h : readerAt, s.ReaderAt d = (some h, none)) ↔ (s.Get d).2 = true) ∧
    ((s.ReaderAt d).2 = none ↔ (s.Get d).2 = true) ∧
    ((s.Get d).2 = false → s.ReaderAt d = (none, some GoError.ErrNotFound)) ∧
    (∀ h : readerAt, s.ReaderAt d = (some h, none) →
      h.Size = ((s.Get d).1.len : Int) ∧
      ∀ p : List Byte, p.length = (s.Get d).1.len →
        (h.ReadAt p 0).1 = (s.Get d).1.toList ∧ (h.ReadAt p 0).2.1 = (s.Get d).1.len) := by
  refine ⟨rfl, rfl, ?_⟩
  cases hc : s.content d.Digest.String with
  | none =>
    obtain ⟨hG, hR⟩ := ReaderAt_of_absent s d hc
    rw [hG, hR]
    simp
  | some c =>
    obtain ⟨hG, hR⟩ := ReaderAt_of_content s d c hc
    rw [hG, hR]
    refine ⟨by simp, by simp, by simp, ?_⟩
    intro h hh
    have hEq : h = newReaderAt c := by simpa using hh.symm
    subst hEq
    refine ⟨rfl, fun p hp => ?_⟩
    rw [ReadAt_whole c p hp]
    exact ⟨rfl, rfl⟩

/-- Witness for C17: a handle over "hello"; reading five bytes at offset 0 gives
"hello". -/
theorem C17_Get_ReaderAt_consistent_witness :
    (newReaderAt (Slice.of helloBytes)).Size
      = ((((NewMemoryStore.Set descAbc (Slice.of helloBytes)).Get descAbc).1.len : Nat) : Int) ∧
    ((newReaderAt (Slice.of helloBytes)).ReadAt [0, 0, 0, 0, 0] 0).1
      = ((NewMemoryStore.Set descAbc (Slice.of helloBytes)).Get descAbc).1.toList ∧
    ((newReaderAt (Slice.of helloBytes)).ReadAt [0, 0, 0, 0, 0] 0).2.1
      = ((NewMemoryStore.Set descAbc (Slice.of helloBytes)).Get descAbc).1.len :=
  have w := (C17_Get_ReaderAt_consistent (NewMemoryStore.Set descAbc (Slice.of helloBytes))
    descAbc).2.2.2.2.2 (newReaderAt (Slice.of helloBytes))
    (ReaderAt_of_content _ _ _ (Set_content_self _ _ _)).2
  ⟨w.1, (w.2 [0, 0, 0, 0, 0] (by decide)).1, (w.2 [0, 0, 0, 0, 0] (by decide)).2⟩

end Oras
